import Mathlib

/-!
Verification of bulkexec (src/bulkexec/main module).

The development shallowly embeds the combination-generation engine
(generate_commands), the result-recording path (execute_commands and
handle_process_output), the sandbox environment handed to the expression
evaluator, and the two sequence constructors bound into that environment
(Python range and numpy repeat).  Machine behaviour of the host runtime
that the module leans on (CPython subprocess.Popen with a sequence
argument and shell mode, dict insertion order, in-place list mutation)
is embedded from its documented semantics where a claim depends on it.
-/

/-- Result of evaluating one template token, tagged as in the data model:
a failed evaluation, a scalar (stringified), or a sequence whose elements
are stringified in iteration order.  Sequences model the sized, positionally
indexable iterables producible by the sandbox bindings (range and numpy
repeat results). -/
inductive EvaluatedValue where
  | err : EvaluatedValue
  | scalar : String → EvaluatedValue
  | seq : List String → EvaluatedValue
deriving DecidableEq, Repr

/-- True exactly on Sequence-classified values. -/
def EvaluatedValue.isSeq : EvaluatedValue → Bool
  | .seq _ => true
  | _ => false

/-- The max_length update of line 76 of the source: a sequence raises the
running width to the max of its length and the current width, anything else
leaves it unchanged. -/
def stepMax (w : Nat) (o : EvaluatedValue) : Nat :=
  match o with
  | .seq s => max s.length w
  | _ => w

/-- Mutable state of the evaluation loop in generate_commands (lines 60-62):
the evaluated_args list (initially a copy of the tokens), the iterables
dict in insertion order, and max_length. -/
structure EvalState where
  evaluatedArgs : List String
  iterables : List (Nat × List String)
  maxLength : Nat
deriving DecidableEq, Repr

/-- One iteration of the evaluation loop (lines 64-84): evaluate the token
at index i with n bound to the current max_length; a sequence is recorded in
the iterables dict and raises max_length, a scalar overwrites position i of
evaluated_args with its string, a failed evaluation leaves the state
unchanged. -/
def evalStep (ev : String → Nat → EvaluatedValue) (st : EvalState) (i : Nat)
    (arg : String) : EvalState :=
  match ev arg st.maxLength with
  | .err => st
  | .scalar v => { st with evaluatedArgs := st.evaluatedArgs.set i v }
  | .seq s =>
      { st with iterables := st.iterables ++ [(i, s)],
                maxLength := max s.length st.maxLength }

/-- The evaluation loop over the enumerated token list, carried out from
index i. -/
def evalPassAux (ev : String → Nat → EvaluatedValue) (i : Nat)
    (l : List String) (st : EvalState) : EvalState :=
  match l with
  | [] => st
  | a :: r => evalPassAux ev (i + 1) r (evalStep ev st i a)

/-- Initial loop state: evaluated_args = a copy of the tokens, an empty
iterables dict, max_length = 1. -/
def initState (tokens : List String) : EvalState := ⟨tokens, [], 1⟩

/-- State after the whole evaluation pass of generate_commands. -/
def evalPass (ev : String → Nat → EvaluatedValue) (tokens : List String) :
    EvalState :=
  evalPassAux ev 0 tokens (initState tokens)

/-- One combination (lines 87-89): starting from the current evaluated_args,
overwrite each iterable position idx with str(iterable[i % len(iterable)]). -/
def commandAt (iters : List (Nat × List String)) (base : List String)
    (i : Nat) : List String :=
  iters.foldl (fun cmd q => cmd.set q.1 (q.2.getD (i % q.2.length) "")) base

/-- Message of the Python exception raised by i % 0. -/
def zeroDivMsg : String := "ZeroDivisionError: integer modulo by zero"

/-- Embedding of generate_commands (lines 51-90), parameterized by the
outcome of the eval call on each token.  The result is the list of values
the generator yields, i.e. the successive contents of evaluated_args at
each yield; when some recorded iterable is empty, the i % len indexing of
line 89 raises ZeroDivisionError while the first combination is being
built, before anything is yielded, which the embedding renders as an
error result carrying no commands. -/
def generate_commands (ev : String → Nat → EvaluatedValue)
    (tokens : List String) : Except String (List (List String)) :=
  let st := evalPass ev tokens
  if st.iterables.any (fun q => q.2.length == 0) then .error zeroDivMsg
  else .ok ((List.range st.maxLength).map (commandAt st.iterables st.evaluatedArgs))

section PythonBindings

/-- Element count of a CPython range object: for positive step the count is
the rounded-up quotient of (stop - start) by step clamped at zero, and
symmetrically for negative step. -/
def rangeSize (start stop step : Int) : Nat :=
  if 0 < step then ((stop - start).toNat + (step.toNat - 1)) / step.toNat
  else ((start - stop).toNat + ((-step).toNat - 1)) / (-step).toNat

/-- Elements of a CPython range object: the k-th element is start + step*k. -/
def rangeElems (start stop step : Int) : List Int :=
  (List.range (rangeSize start stop step)).map
    (fun (k : Nat) => start + step * (k : Int))

/-- The range builtin bound into the eval environment at line 70, on integer
arguments: one argument is a stop, two are start and stop with step 1, three
are start, stop and a nonzero step; any other arity is a TypeError. -/
def pyRange (args : List Int) : Except String (List Int) :=
  match args with
  | [stop] => .ok (rangeElems 0 stop 1)
  | [start, stop] => .ok (rangeElems start stop 1)
  | [start, stop, step] =>
      if step = 0 then .error "ValueError: range() arg 3 must not be zero"
      else .ok (rangeElems start stop step)
  | _ => .error "TypeError: range expected 1 to 3 arguments"

/-- numpy.repeat bound into the eval environment at line 70, on an integer
array and a nonnegative count: each element of the array is repeated count
times consecutively; numpy treats a scalar first argument as a one-element
array, so a scalar value yields exactly count copies of it. -/
def npRepeat (value : List Int) (count : Nat) : List Int :=
  match value with
  | [] => []
  | a :: r => List.replicate count a ++ npRepeat r count

end PythonBindings

/-- Decidable equality for Except results, used to evaluate the embedding on
concrete inputs. -/
instance {α β : Type} [DecidableEq α] [DecidableEq β] :
    DecidableEq (Except α β) := fun a b =>
  match a, b with
  | .error x, .error y =>
      if h : x = y then .isTrue (by rw [h])
      else .isFalse (by intro hh; cases hh; exact h rfl)
  | .ok x, .ok y =>
      if h : x = y then .isTrue (by rw [h])
      else .isFalse (by intro hh; cases hh; exact h rfl)
  | .error _, .ok _ => .isFalse (by intro hh; cases hh)
  | .ok _, .error _ => .isFalse (by intro hh; cases hh)

/-- Split a character list on a separator; on an empty list the result is one
empty field, matching the split semantics used for argument lists. -/
def splitChars (sep : Char) : List Char → List (List Char)
  | [] => [[]]
  | c :: r =>
      match splitChars sep r with
      | [] => if c = sep then [[], []] else [[c]]
      | x :: xs => if c = sep then [] :: x :: xs else (c :: x) :: xs

/-- Value of a decimal digit character. -/
def charDigit? (c : Char) : Option Nat :=
  if c.isDigit then some (c.toNat - 48) else none

/-- Parse a nonempty string of decimal digits. -/
def parseNatChars? : List Char → Option Nat
  | [] => none
  | l => l.foldl (fun acc c =>
      match acc, charDigit? c with
      | some a, some d => some (a * 10 + d)
      | _, _ => none) (some 0)

/-- Parse an optionally negated decimal integer. -/
def parseIntChars? (l : List Char) : Option Int :=
  match l with
  | '-' :: r => (parseNatChars? r).map (fun k => -(k : Int))
  | _ => (parseNatChars? l).map (fun k => (k : Int))

/-- Strip a literal prefix from a character list, if present. -/
def dropPrefixChars? : List Char → List Char → Option (List Char)
  | [], l => some l
  | _ :: _, [] => none
  | a :: p, b :: l => if a = b then dropPrefixChars? p l else none

/-- An atom of a modelled token expression: the name n (bound to the current
width by line 70) or a decimal integer literal. -/
def parseAtomChars (w : Nat) (l : List Char) : Option Int :=
  if l = ['n'] then some (w : Int) else parseIntChars? l

/-- Model of the eval call of lines 67-71 on the fragment of Python
expressions exercised in this development, over the token's character list:
the names n and double-underscore builtins (the latter present in the
globals dict of line 69 with value None), decimal integer literals, and a
single call range(...) or repeat(...) whose arguments are atoms.  Every
other token is modelled as a failed evaluation, which is exact for plain
word tokens (they raise NameError under the environment of lines 69-70).
Sequence results are stringified per element as done at line 89; scalars
are stringified as at line 78. -/
def evalTokenChars (cs : List Char) (w : Nat) : EvaluatedValue :=
  if cs = ['n'] then .scalar (toString w)
  else if cs = "__builtins__".data then .scalar "None"
  else match parseIntChars? cs with
  | some k => .scalar (toString k)
  | none =>
    match dropPrefixChars? "range(".data cs with
    | some rest =>
        if rest.getLast? = some ')' then
          match (splitChars ',' rest.dropLast).mapM (parseAtomChars w) with
          | some args =>
              match pyRange args with
              | .ok l => .seq (l.map toString)
              | .error _ => .err
          | none => .err
        else .err
    | none =>
      match dropPrefixChars? "repeat(".data cs with
      | some rest =>
          if rest.getLast? = some ')' then
            match (splitChars ',' rest.dropLast).mapM (parseAtomChars w) with
            | some [v, c] =>
                if c < 0 then .err
                else .seq ((npRepeat [v] c.toNat).map toString)
            | _ => .err
          else .err
      | none => .err

/-- The modelled evaluator on a token string. -/
def evalTokenModel (s : String) (w : Nat) : EvaluatedValue :=
  evalTokenChars s.data w

/-- Completion data of one launched process: captured stdout, captured
stderr, and the integer exit code, as read by process.communicate at
line 101. -/
structure ProcResult where
  stdout : String
  stderr : String
  returncode : Int
deriving DecidableEq, Repr

/-- A concrete process-behaviour oracle for evaluating the embedding on
closed inputs: every process writes nothing and exits 0. -/
def silentRun : Nat → List String → ProcResult := fun _ _ => ⟨"", "", 0⟩

/-- The CSV data row built by handle_process_output (lines 115-121):
process.args followed by decoded stdout, decoded stderr, and the exit code
(stringified by the csv writer). -/
def process_row (args : List String) (res : ProcResult) : List String :=
  args ++ [res.stdout, res.stderr, toString res.returncode]

/-- Final contents of the evaluated_args list after the generator is
exhausted, i.e. after the mutations of the last expansion index.  The
generator of lines 87-90 yields the evaluated_args list object itself, and
subprocess.Popen stores that same object as process.args, so by the time
handle_process_output builds a CSV row every process.args holds this final
state rather than the launch-time contents. -/
def final_evaluated_args (ev : String → Nat → EvaluatedValue)
    (tokens : List String) : List String :=
  let st := evalPass ev tokens
  commandAt st.iterables st.evaluatedArgs (st.maxLength - 1)

/-- Embedding of execute_commands with an output destination configured
(lines 124-155): the CSV file contents as a list of rows of cells.  The
header row (lines 141-142) is the raw template tokens followed by stdout,
stderr and returncode; after all launches, the drain loop of lines 154-155
writes one row per process in launch order, whose command cells come from
process.args (the shared evaluated_args list in its final state) and whose
remaining cells are that process's captured stdout, stderr and exit code.
The launched command of process i is the i-th value the generator yielded,
which is what the run oracle is applied to. -/
def execute_commands (ev : String → Nat → EvaluatedValue)
    (run : Nat → List String → ProcResult) (tokens : List String) :
    Except String (List (List String)) :=
  match generate_commands ev tokens with
  | .error e => .error e
  | .ok cmds =>
      .ok ((tokens ++ ["stdout", "stderr", "returncode"]) ::
        cmds.enum.map (fun ic =>
          process_row (final_evaluated_args ev tokens) (run ic.1 ic.2)))

section ShellLaunch

/-- Argument vector actually executed for one launch.  Line 149-151 calls
subprocess.Popen(command, ..., shell=True) with command a list of strings;
with shell mode and a sequence argument, CPython on POSIX prepends the shell
and -c, so the vector is /bin/sh, -c, followed by the command tokens. -/
def popenShellArgv (cmd : List String) : List String :=
  "/bin/sh" :: "-c" :: cmd

/-- The string the shell parses as the command: the operand right after -c,
i.e. only the first token of the generated command.  The remaining tokens
become positional parameters of the shell itself, not part of the parsed
command. -/
def shellCommandString (cmd : List String) : Option String :=
  (popenShellArgv cmd).get? 2

/-- Modelled from the spec: the joined command string, all tokens joined
into one string, which the spec says is handed to the shell.  In the source
this joined string appears only in the debug log message of line 147, not
in the Popen call. -/
def joinedCommandString (cmd : List String) : String :=
  String.intercalate " " cmd

end ShellLaunch

section Sandbox

/-- Names bound in the globals dict handed to eval at line 69.  The mapping
of double-underscore builtins to None suppresses the implicit builtin
namespace, but the name itself remains a resolvable global. -/
def sandboxGlobalNames : List String := ["__builtins__"]

/-- Names bound in the locals dict handed to eval at line 70: the current
width n, the range constructor, and the numpy repeat constructor. -/
def sandboxLocalNames : List String := ["n", "range", "repeat"]

/-- All names that resolve inside an evaluated token expression: eval looks
a name up in the locals dict, then the globals dict. -/
def evalResolvableNames : List String := sandboxLocalNames ++ sandboxGlobalNames

end Sandbox

section Denotations

/-- Logging levels used by the module (the logging calls at lines 72, 82,
105 and 111). -/
inductive LogLevel where
  | debug | info | error
deriving DecidableEq, Repr

/-- Per-token outcomes of the evaluation loop, each computed with the width
current when that token is reached. -/
def outcomesFrom (ev : String → Nat → EvaluatedValue) (w : Nat) :
    List String → List EvaluatedValue
  | [] => []
  | a :: r => ev a w :: outcomesFrom ev (stepMax w (ev a w)) r

/-- Per-token width bindings: the value of max_length passed as n to the
eval call for each token, in loop order. -/
def widthsList (ev : String → Nat → EvaluatedValue) (w : Nat) :
    List String → List Nat
  | [] => []
  | a :: r => w :: widthsList ev (stepMax w (ev a w)) r

/-- Per-token logging level of the evaluation loop: a successful evaluation
is logged by the logger.debug call of line 72, a failed one by the
logger.debug call of line 82. -/
def logLevelsFrom (ev : String → Nat → EvaluatedValue) (w : Nat) :
    List String → List LogLevel
  | [] => []
  | a :: r =>
      (match ev a w with
       | .err => LogLevel.debug
       | _ => LogLevel.debug) :: logLevelsFrom ev (stepMax w (ev a w)) r

/-- Contents of evaluated_args right after the evaluation loop: scalar
positions hold the stringified value, all others still hold the original
token. -/
def argsFrom (ev : String → Nat → EvaluatedValue) (w : Nat) :
    List String → List String
  | [] => []
  | a :: r =>
      (match ev a w with
       | .scalar v => v
       | _ => a) :: argsFrom ev (stepMax w (ev a w)) r

/-- Contents of the iterables dict after the evaluation loop, in insertion
order, with positions counted from i. -/
def itersFrom (ev : String → Nat → EvaluatedValue) (w : Nat) (i : Nat) :
    List String → List (Nat × List String)
  | [] => []
  | a :: r =>
      match ev a w with
      | .seq s => (i, s) :: itersFrom ev (max s.length w) (i + 1) r
      | .scalar _ => itersFrom ev w (i + 1) r
      | .err => itersFrom ev w (i + 1) r

/-- Value of max_length after the evaluation loop. -/
def widthFrom (ev : String → Nat → EvaluatedValue) (w : Nat) :
    List String → Nat
  | [] => w
  | a :: r => widthFrom ev (stepMax w (ev a w)) r

/-- Combination at expansion index i, position by position: a sequence
contributes its element at i modulo its length, a scalar its stringified
value, a failed evaluation the original token. -/
def cmdAtDen (ev : String → Nat → EvaluatedValue) (w : Nat)
    (l : List String) (i : Nat) : List String :=
  match l with
  | [] => []
  | a :: r =>
      (match ev a w with
       | .seq s => s.getD (i % s.length) ""
       | .scalar v => v
       | .err => a) :: cmdAtDen ev (stepMax w (ev a w)) r i

/-- Outcomes of one full run, widths starting at 1. -/
def outcomes (ev : String → Nat → EvaluatedValue) (tokens : List String) :
    List EvaluatedValue :=
  outcomesFrom ev 1 tokens

/-- Width bindings of one full run, starting at 1. -/
def evalWidths (ev : String → Nat → EvaluatedValue) (tokens : List String) :
    List Nat :=
  widthsList ev 1 tokens

/-- Logging levels of one full run. -/
def evalLogLevels (ev : String → Nat → EvaluatedValue)
    (tokens : List String) : List LogLevel :=
  logLevelsFrom ev 1 tokens

/-- Greatest length among Sequence-classified outcomes, zero when there is
none. -/
def maxSeqLen (os : List EvaluatedValue) : Nat :=
  os.foldl stepMax 0

/-- True when no Sequence-classified outcome is the empty sequence. -/
def noEmptySeq (os : List EvaluatedValue) : Bool :=
  os.all (fun o =>
    match o with
    | .seq s => !s.isEmpty
    | _ => true)

end Denotations

section BridgeLemmas

/-- Setting the element right after a prefix rewrites the head of the
suffix. -/
theorem set_append_cons {α : Type} (done : List α) (a v : α) (r : List α) :
    (done ++ a :: r).set done.length v = done ++ v :: r := by
  induction done with
  | nil => rfl
  | cons d ds ih => simp [List.set, ih]

/-- The evaluation loop equals its denotation: starting at any prefix
boundary, the final evaluated_args is the prefix followed by argsFrom, the
iterables dict grows by itersFrom, and max_length becomes widthFrom. -/
theorem evalPassAux_eq (ev : String → Nat → EvaluatedValue) :
    ∀ (l done : List String) (iters : List (Nat × List String)) (w : Nat),
      evalPassAux ev done.length l ⟨done ++ l, iters, w⟩ =
        ⟨done ++ argsFrom ev w l, iters ++ itersFrom ev w done.length l,
          widthFrom ev w l⟩ := by
  intro l
  induction l with
  | nil => intro done iters w; simp [evalPassAux, argsFrom, itersFrom, widthFrom]
  | cons a r ih =>
    intro done iters w
    rw [evalPassAux]
    rcases h : ev a w with _ | v | s
    · have step : evalStep ev ⟨done ++ a :: r, iters, w⟩ done.length a =
          ⟨done ++ a :: r, iters, w⟩ := by
        simp [evalStep, h]
      rw [step]
      have : done ++ a :: r = (done ++ [a]) ++ r := by simp
      rw [this, show done.length + 1 = (done ++ [a]).length by simp]
      rw [ih (done ++ [a]) iters w]
      simp [argsFrom, itersFrom, widthFrom, h, stepMax]
    · have step : evalStep ev ⟨done ++ a :: r, iters, w⟩ done.length a =
          ⟨done ++ v :: r, iters, w⟩ := by
        simp [evalStep, h, set_append_cons]
      rw [step]
      have : done ++ v :: r = (done ++ [v]) ++ r := by simp
      rw [this, show done.length + 1 = (done ++ [v]).length by simp]
      rw [ih (done ++ [v]) iters w]
      simp [argsFrom, itersFrom, widthFrom, h, stepMax]
    · have step : evalStep ev ⟨done ++ a :: r, iters, w⟩ done.length a =
          ⟨done ++ a :: r, iters ++ [(done.length, s)], max s.length w⟩ := by
        simp [evalStep, h]
      rw [step]
      have : done ++ a :: r = (done ++ [a]) ++ r := by simp
      rw [this, show done.length + 1 = (done ++ [a]).length by simp]
      rw [ih (done ++ [a]) (iters ++ [(done.length, s)]) (max s.length w)]
      simp [argsFrom, itersFrom, widthFrom, h, stepMax]

/-- The full evaluation pass in denotational form. -/
theorem evalPass_eq (ev : String → Nat → EvaluatedValue)
    (tokens : List String) :
    evalPass ev tokens =
      ⟨argsFrom ev 1 tokens, itersFrom ev 1 0 tokens,
        widthFrom ev 1 tokens⟩ := by
  have h := evalPassAux_eq ev tokens [] [] 1
  simpa [evalPass, initState] using h

/-- The combination-building loop equals its per-position denotation: folding
the substitutions of the iterables dict over the evaluated arguments yields
cmdAtDen. -/
theorem commandAt_den (ev : String → Nat → EvaluatedValue) (i : Nat) :
    ∀ (l done : List String) (w : Nat),
      commandAt (itersFrom ev w done.length l) (done ++ argsFrom ev w l) i =
        done ++ cmdAtDen ev w l i := by
  intro l
  induction l with
  | nil => intro done w; simp [commandAt, itersFrom, argsFrom, cmdAtDen]
  | cons a r ih =>
    intro done w
    rcases h : ev a w with _ | v | s
    · simp only [itersFrom, argsFrom, cmdAtDen, h, stepMax]
      have e1 : done ++ a :: argsFrom ev w r =
          (done ++ [a]) ++ argsFrom ev w r := by simp
      rw [e1, show done.length + 1 = (done ++ [a]).length by simp,
        ih (done ++ [a]) w]
      simp
    · simp only [itersFrom, argsFrom, cmdAtDen, h, stepMax]
      have e1 : done ++ v :: argsFrom ev w r =
          (done ++ [v]) ++ argsFrom ev w r := by simp
      rw [e1, show done.length + 1 = (done ++ [v]).length by simp,
        ih (done ++ [v]) w]
      simp
    · simp only [itersFrom, argsFrom, cmdAtDen, h, stepMax]
      rw [commandAt, List.foldl_cons]
      have hset : (done ++ a :: argsFrom ev (max s.length w) r).set
          done.length (s.getD (i % s.length) "") =
          (done ++ [s.getD (i % s.length) ""]) ++
            argsFrom ev (max s.length w) r := by
        rw [set_append_cons]; simp
      simp only [hset]
      rw [show done.length + 1 =
        (done ++ [s.getD (i % s.length) ""]).length by simp]
      have h2 := ih (done ++ [s.getD (i % s.length) ""]) (max s.length w)
      rw [commandAt] at h2
      rw [h2]
      simp

/-- Final max_length is the fold of the sequence-length maximum over the
outcome trace. -/
theorem widthFrom_eq_foldl (ev : String → Nat → EvaluatedValue) :
    ∀ (l : List String) (w : Nat),
      widthFrom ev w l = (outcomesFrom ev w l).foldl stepMax w := by
  intro l
  induction l with
  | nil => intro w; simp [widthFrom, outcomesFrom]
  | cons a r ih => intro w; rw [widthFrom, outcomesFrom, List.foldl_cons, ih]

/-- The sequence-length fold distributes over its initial value as a
maximum. -/
theorem foldl_stepMax_init :
    ∀ (os : List EvaluatedValue) (w : Nat),
      os.foldl stepMax w = max w (os.foldl stepMax 0) := by
  intro os
  induction os with
  | nil => intro w; simp
  | cons o r ih =>
    intro w
    rw [List.foldl_cons, List.foldl_cons, ih (stepMax w o), ih (stepMax 0 o)]
    rcases o with _ | v | s <;>
      simp [stepMax, Nat.max_comm, Nat.max_assoc, Nat.max_left_comm]

/-- The iterables dict holds exactly the sequences among the outcomes, in
order. -/
theorem itersFrom_snd (ev : String → Nat → EvaluatedValue) :
    ∀ (l : List String) (w i : Nat),
      (itersFrom ev w i l).map Prod.snd =
        (outcomesFrom ev w l).filterMap (fun o =>
          match o with
          | .seq s => some s
          | _ => none) := by
  intro l
  induction l with
  | nil => intro w i; simp [itersFrom, outcomesFrom]
  | cons a r ih =>
    intro w i
    rcases h : ev a w with _ | v | s <;>
      simp [itersFrom, outcomesFrom, h, stepMax, ih]

/-- The emptiness guard over the iterables dict matches emptiness of some
sequence outcome. -/
theorem iters_any_empty (ev : String → Nat → EvaluatedValue) :
    ∀ (l : List String) (w i : Nat),
      (itersFrom ev w i l).any (fun q => q.2.length == 0) =
        !noEmptySeq (outcomesFrom ev w l) := by
  intro l
  induction l with
  | nil => intro w i; simp [itersFrom, outcomesFrom, noEmptySeq]
  | cons a r ih =>
    intro w i
    rcases h : ev a w with _ | v | s
    · simp [itersFrom, outcomesFrom, h, noEmptySeq, stepMax] at ih ⊢
      exact ih w (i + 1)
    · simp [itersFrom, outcomesFrom, h, noEmptySeq, stepMax] at ih ⊢
      exact ih w (i + 1)
    · simp only [itersFrom, outcomesFrom, h, List.any_cons, noEmptySeq,
        List.all_cons, Bool.not_and]
      rw [show (stepMax w (.seq s)) = max s.length w from rfl]
      have hbe : ((i, s).2.length == 0) = s.isEmpty := by
        cases s <;> simp
      rw [hbe]
      have := ih (max s.length w) (i + 1)
      simp only [noEmptySeq] at this
      rw [this]
      cases s <;> simp

/-- generate_commands in denotational form: an error when some sequence
outcome is empty, otherwise the expansion-width many combinations. -/
theorem generate_commands_den (ev : String → Nat → EvaluatedValue)
    (tokens : List String) :
    generate_commands ev tokens =
      if noEmptySeq (outcomes ev tokens) then
        .ok ((List.range (widthFrom ev 1 tokens)).map
          (cmdAtDen ev 1 tokens))
      else .error zeroDivMsg := by
  have hca := commandAt_den ev
  have hfun : commandAt (itersFrom ev 1 0 tokens) (argsFrom ev 1 tokens) =
      cmdAtDen ev 1 tokens := by
    funext i
    simpa using hca i tokens [] 1
  rw [generate_commands, evalPass_eq]
  simp only [iters_any_empty ev tokens 1 0, outcomes, hfun]
  rcases Bool.eq_false_or_eq_true (noEmptySeq (outcomesFrom ev 1 tokens)) with
    hb | hb <;> simp [hb]

/-- Outcome trace and token list have the same length. -/
theorem outcomesFrom_length (ev : String → Nat → EvaluatedValue) :
    ∀ (l : List String) (w : Nat), (outcomesFrom ev w l).length = l.length := by
  intro l
  induction l with
  | nil => intro w; rfl
  | cons a r ih => intro w; simp [outcomesFrom, ih]

/-- Width trace and token list have the same length. -/
theorem widthsList_length (ev : String → Nat → EvaluatedValue) :
    ∀ (l : List String) (w : Nat), (widthsList ev w l).length = l.length := by
  intro l
  induction l with
  | nil => intro w; rfl
  | cons a r ih => intro w; simp [widthsList, ih]

/-- The evaluation loop logs every token, succeed or fail, at debug level. -/
theorem logLevelsFrom_eq (ev : String → Nat → EvaluatedValue) :
    ∀ (l : List String) (w : Nat),
      logLevelsFrom ev w l = List.replicate l.length LogLevel.debug := by
  intro l
  induction l with
  | nil => intro w; rfl
  | cons a r ih =>
    intro w
    rcases h : ev a w with _ | v | s <;>
      simp [logLevelsFrom, h, ih, List.replicate]

/-- Width binding of the j-th token: the fold of the sequence-length maximum
over the outcomes of the earlier tokens only. -/
theorem widthsList_get? (ev : String → Nat → EvaluatedValue) :
    ∀ (l : List String) (w j : Nat), j < l.length →
      (widthsList ev w l).get? j =
        some (((outcomesFrom ev w l).take j).foldl stepMax w) := by
  intro l
  induction l with
  | nil => intro w j hj; simp at hj
  | cons a r ih =>
    intro w j hj
    match j with
    | 0 => simp [widthsList, outcomesFrom]
    | j + 1 =>
      have hj' : j < r.length := by simpa using hj
      simp only [widthsList, outcomesFrom, List.get?_cons_succ, List.take_succ_cons,
        List.foldl_cons]
      exact ih (stepMax w (ev a w)) j hj'

/-- The j-th outcome is the evaluator applied to the j-th token at the j-th
width binding: each token is evaluated exactly once, in template order. -/
theorem outcomesFrom_get? (ev : String → Nat → EvaluatedValue) :
    ∀ (l : List String) (w p : Nat) (a : String) (u : Nat),
      l.get? p = some a → (widthsList ev w l).get? p = some u →
      (outcomesFrom ev w l).get? p = some (ev a u) := by
  intro l
  induction l with
  | nil => intro w p a u ha _; simp at ha
  | cons b r ih =>
    intro w p a u ha hu
    match p with
    | 0 =>
      simp only [List.get?_cons_zero, Option.some_inj] at ha
      simp only [widthsList, List.get?_cons_zero, Option.some_inj] at hu
      subst ha; subst hu
      simp [outcomesFrom]
    | p + 1 =>
      simp only [List.get?_cons_succ] at ha
      simp only [widthsList, List.get?_cons_succ] at hu
      simp only [outcomesFrom, List.get?_cons_succ]
      exact ih (stepMax w (ev b w)) p a u ha hu

/-- Per-position contents of a combination: position p holds the modulo
element of a sequence outcome, the stringified scalar of a scalar outcome,
and the original token of a failed evaluation. -/
theorem cmdAtDen_get? (ev : String → Nat → EvaluatedValue) :
    ∀ (l : List String) (w i p : Nat), p < l.length →
      ∃ o a, (outcomesFrom ev w l).get? p = some o ∧ l.get? p = some a ∧
        (cmdAtDen ev w l i).get? p = some (match o with
          | .seq s => s.getD (i % s.length) ""
          | .scalar v => v
          | .err => a) := by
  intro l
  induction l with
  | nil => intro w i p hp; simp at hp
  | cons b r ih =>
    intro w i p hp
    match p with
    | 0 =>
      refine ⟨ev b w, b, ?_, ?_, ?_⟩ <;> simp [outcomesFrom, cmdAtDen]
    | p + 1 =>
      have hp' : p < r.length := by simpa using hp
      obtain ⟨o, a, h1, h2, h3⟩ := ih (stepMax w (ev b w)) i p hp'
      exact ⟨o, a, by simpa [outcomesFrom] using h1, by simpa using h2,
        by simpa [cmdAtDen] using h3⟩

/-- Per-position contents of evaluated_args after the evaluation loop:
scalars are substituted, sequence and failed positions keep the original
token. -/
theorem argsFrom_get? (ev : String → Nat → EvaluatedValue) :
    ∀ (l : List String) (w p : Nat), p < l.length →
      ∃ o a, (outcomesFrom ev w l).get? p = some o ∧ l.get? p = some a ∧
        (argsFrom ev w l).get? p = some (match o with
          | .scalar v => v
          | _ => a) := by
  intro l
  induction l with
  | nil => intro w p hp; simp at hp
  | cons b r ih =>
    intro w p hp
    match p with
    | 0 =>
      refine ⟨ev b w, b, ?_, ?_, ?_⟩ <;> simp [outcomesFrom, argsFrom]
    | p + 1 =>
      have hp' : p < r.length := by simpa using hp
      obtain ⟨o, a, h1, h2, h3⟩ := ih (stepMax w (ev b w)) p hp'
      exact ⟨o, a, by simpa [outcomesFrom] using h1, by simpa using h2,
        by simpa [argsFrom] using h3⟩

/-- With no sequence outcome the iterables dict stays empty. -/
theorem itersFrom_eq_nil (ev : String → Nat → EvaluatedValue) :
    ∀ (l : List String) (w i : Nat),
      (∀ o ∈ outcomesFrom ev w l, o.isSeq = false) →
      itersFrom ev w i l = [] := by
  intro l
  induction l with
  | nil => intro w i _; rfl
  | cons a r ih =>
    intro w i hall
    have htail : ∀ o ∈ outcomesFrom ev (stepMax w (ev a w)) r,
        o.isSeq = false := fun o ho =>
      hall o (by rw [outcomesFrom]; exact List.mem_cons_of_mem _ ho)
    have hhead : (ev a w).isSeq = false :=
      hall (ev a w) (by rw [outcomesFrom]; exact List.mem_cons_self _ _)
    rcases h : ev a w with _ | v | s
    · simp only [itersFrom, h]
      exact ih w (i + 1) (by rw [h] at htail; exact htail)
    · simp only [itersFrom, h]
      exact ih w (i + 1) (by rw [h] at htail; exact htail)
    · rw [h] at hhead
      simp [EvaluatedValue.isSeq] at hhead

/-- With no sequence outcome max_length never moves off its initial value. -/
theorem widthFrom_no_seq (ev : String → Nat → EvaluatedValue) :
    ∀ (l : List String) (w : Nat),
      (∀ o ∈ outcomesFrom ev w l, o.isSeq = false) →
      widthFrom ev w l = w := by
  intro l
  induction l with
  | nil => intro w _; rfl
  | cons a r ih =>
    intro w hall
    have htail : ∀ o ∈ outcomesFrom ev (stepMax w (ev a w)) r,
        o.isSeq = false := fun o ho =>
      hall o (by rw [outcomesFrom]; exact List.mem_cons_of_mem _ ho)
    have hhead : (ev a w).isSeq = false :=
      hall (ev a w) (by rw [outcomesFrom]; exact List.mem_cons_self _ _)
    rcases h : ev a w with _ | v | s
    · simp only [widthFrom, h, stepMax]
      exact ih w (by rw [h] at htail; exact htail)
    · simp only [widthFrom, h, stepMax]
      exact ih w (by rw [h] at htail; exact htail)
    · rw [h] at hhead
      simp [EvaluatedValue.isSeq] at hhead

/-- With no sequence outcome the combination denotation coincides with the
evaluated arguments. -/
theorem cmdAtDen_no_seq (ev : String → Nat → EvaluatedValue) :
    ∀ (l : List String) (w i : Nat),
      (∀ o ∈ outcomesFrom ev w l, o.isSeq = false) →
      cmdAtDen ev w l i = argsFrom ev w l := by
  intro l
  induction l with
  | nil => intro w i _; rfl
  | cons a r ih =>
    intro w i hall
    have htail : ∀ o ∈ outcomesFrom ev (stepMax w (ev a w)) r,
        o.isSeq = false := fun o ho =>
      hall o (by rw [outcomesFrom]; exact List.mem_cons_of_mem _ ho)
    have hhead : (ev a w).isSeq = false :=
      hall (ev a w) (by rw [outcomesFrom]; exact List.mem_cons_self _ _)
    rcases h : ev a w with _ | v | s
    · simp only [cmdAtDen, argsFrom, h]
      rw [ih _ i (by rw [h] at htail; exact htail)]
    · simp only [cmdAtDen, argsFrom, h]
      rw [ih _ i (by rw [h] at htail; exact htail)]
    · rw [h] at hhead
      simp [EvaluatedValue.isSeq] at hhead

/-- Getting from an enumerated list pairs the index with the element. -/
theorem get?_enumFrom {α : Type} :
    ∀ (l : List α) (n i : Nat),
      (List.enumFrom n l).get? i = (l.get? i).map (fun a => (n + i, a)) := by
  intro l
  induction l with
  | nil => intro n i; simp
  | cons a r ih =>
    intro n i
    match i with
    | 0 => simp
    | i + 1 =>
      simp only [List.enumFrom, List.get?_cons_succ, ih (n + 1) i]
      rcases r.get? i with _ | b <;> simp [Nat.add_assoc, Nat.add_comm 1 i]

/-- With step 1 the range elements are exactly the integers from start to
stop, end exclusive. -/
theorem rangeElems_step_one (start stop : Int) :
    rangeElems start stop 1 =
      (List.range (stop - start).toNat).map
        (fun (k : Nat) => start + (k : Int)) := by
  have hs : rangeSize start stop 1 = (stop - start).toNat := by
    simp [rangeSize]
  rw [rangeElems, hs]
  simp

/-- With positive step the range elements are strictly ascending. -/
theorem rangeElems_pairwise_pos (start stop step : Int) (hs : 0 < step) :
    (rangeElems start stop step).Pairwise (· < ·) := by
  rw [rangeElems]
  refine List.Pairwise.map _ ?_ (List.pairwise_lt_range _)
  intro a b hab
  have h1 : step * (a : Int) < step * (b : Int) :=
    Int.mul_lt_mul_of_pos_left (by exact_mod_cast hab) hs
  omega

/-- With negative step the range elements are strictly descending. -/
theorem rangeElems_pairwise_neg (start stop step : Int) (hs : step < 0) :
    (rangeElems start stop step).Pairwise (· > ·) := by
  rw [rangeElems]
  refine List.Pairwise.map _ ?_ (List.pairwise_lt_range _)
  intro a b hab
  have h1 : step * (b : Int) < step * (a : Int) :=
    mul_lt_mul_of_neg_left (by exact_mod_cast hab) hs
  simp only [gt_iff_lt]
  omega

/-- With positive step every range element lies in the half-open interval
from start to stop. -/
theorem rangeElems_mem_pos (start stop step : Int) (hs : 0 < step) :
    ∀ x ∈ rangeElems start stop step, start ≤ x ∧ x < stop := by
  intro x hx
  rw [rangeElems] at hx
  obtain ⟨k, hk, rfl⟩ := List.mem_map.mp hx
  rw [List.mem_range] at hk
  have hlow : (0 : Int) ≤ step * (k : Int) :=
    mul_nonneg hs.le (Int.natCast_nonneg k)
  refine ⟨by omega, ?_⟩
  have hsz : rangeSize start stop step =
      ((stop - start).toNat + (step.toNat - 1)) / step.toNat := by
    simp [rangeSize, hs]
  rw [hsz] at hk
  have hq := Nat.div_mul_le_self ((stop - start).toNat + (step.toNat - 1))
    step.toNat
  have h2 : (k + 1) * step.toNat ≤
      (((stop - start).toNat + (step.toNat - 1)) / step.toNat) * step.toNat :=
    Nat.mul_le_mul_right _ hk
  have h3 : (k + 1) * step.toNat ≤ (stop - start).toNat + (step.toNat - 1) :=
    le_trans h2 hq
  have h4 : k * step.toNat + step.toNat = (k + 1) * step.toNat := by ring
  have h5 : k * step.toNat < (stop - start).toNat := by omega
  have h6 : ((k * step.toNat : Nat) : Int) = step * (k : Int) := by
    push_cast [Int.toNat_of_nonneg hs.le]
    ring
  omega

/-- numpy repeat of a scalar is exactly count copies of it. -/
theorem npRepeat_scalar (v : Int) (c : Nat) :
    npRepeat [v] c = List.replicate c v := by
  simp [npRepeat]

end BridgeLemmas

section ClaimTheorems

/-- Claim C1, amended: for every token list whose Sequence-classified
outcomes are all non-empty, the generator produces exactly ExpansionWidth
commands, where ExpansionWidth is the maximum of 1 and the greatest length
among Sequence-classified outcomes; at expansion index i every
Sequence-classified position contributes its element at index i modulo the
length of that sequence, every Scalar-classified position its stringified
value unchanged, and every failed (literal) position its original token
unchanged.  The amendment drops token lists with an empty sequence outcome,
on which the code raises a ZeroDivisionError instead of producing the
commands (see the counterexample). -/
theorem generate_commands_expansion (tokens : List String)
    (ev : String → Nat → EvaluatedValue)
    (h : noEmptySeq (outcomes ev tokens) = true) :
    generate_commands ev tokens =
      .ok ((List.range (max 1 (maxSeqLen (outcomes ev tokens)))).map
        (cmdAtDen ev 1 tokens)) ∧
    (∀ cmds, generate_commands ev tokens = .ok cmds →
      cmds.length = max 1 (maxSeqLen (outcomes ev tokens))) ∧
    (∀ i p, p < tokens.length →
      ∃ o a, (outcomes ev tokens).get? p = some o ∧ tokens.get? p = some a ∧
        (cmdAtDen ev 1 tokens i).get? p = some (match o with
          | .seq s => s.getD (i % s.length) ""
          | .scalar v => v
          | .err => a)) := by
  have hw : widthFrom ev 1 tokens = max 1 (maxSeqLen (outcomes ev tokens)) := by
    rw [widthFrom_eq_foldl, foldl_stepMax_init]
    rfl
  have hden := generate_commands_den ev tokens
  rw [h] at hden
  simp only [if_true] at hden
  refine ⟨?_, ?_, ?_⟩
  · rw [hden, hw]
  · intro cmds hc
    rw [hden] at hc
    have := Except.ok.inj hc
    rw [← this]
    simp [hw]
  · intro i p hp
    exact cmdAtDen_get? ev tokens 1 i p hp

/-- Witness for claim C1 at the template echo range(2). -/
theorem generate_commands_expansion_witness :
    generate_commands evalTokenModel ["echo", "range(2)"] =
      .ok [["echo", "0"], ["echo", "1"]] := by
  have h := (generate_commands_expansion ["echo", "range(2)"] evalTokenModel
    (by decide)).1
  exact h.trans (by decide)

/-- Counterexample to claim C1 as stated: at the one-token template
range(0) the outcome is the empty sequence, ExpansionWidth would be
max 1 0 = 1, yet generation yields a ZeroDivisionError and no command
list at all. -/
theorem generate_commands_counterexample :
    generate_commands evalTokenModel ["range(0)"] = .error zeroDivMsg ∧
    max 1 (maxSeqLen (outcomes evalTokenModel ["range(0)"])) = 1 := by
  decide

/-- Claim C10: whenever some token evaluates to an empty sequence, the
modulo indexing of the generation loop divides by zero while the first
combination is being built, so generation fails with a ZeroDivisionError
instead of returning a command list. -/
theorem empty_sequence_zero_division (tokens : List String)
    (ev : String → Nat → EvaluatedValue)
    (h : EvaluatedValue.seq [] ∈ outcomes ev tokens) :
    generate_commands ev tokens = .error zeroDivMsg := by
  rcases Bool.eq_false_or_eq_true (noEmptySeq (outcomes ev tokens)) with hb | hb
  · exfalso
    have := List.all_eq_true.mp hb _ h
    simp at this
  · rw [generate_commands_den, hb]
    simp

/-- Witness for claim C10 at the template range(0). -/
theorem empty_sequence_zero_division_witness :
    generate_commands evalTokenModel ["range(0)"] = .error zeroDivMsg :=
  empty_sequence_zero_division ["range(0)"] evalTokenModel (by decide)

/-- Claim C4: a token whose evaluation fails at every width appears
unchanged, as its original literal text, at its position in every generated
command, and the evaluation loop records it only at the diagnostic (debug)
logging level; the failure itself never turns the generation result into an
error. -/
theorem error_token_literal (tokens : List String)
    (ev : String → Nat → EvaluatedValue) (p : Nat) (hp : p < tokens.length)
    (herr : ∀ w, ev (tokens.getD p "") w = .err) :
    (∀ cmds, generate_commands ev tokens = .ok cmds →
      ∀ cmd ∈ cmds, cmd.get? p = tokens.get? p) ∧
    (evalLogLevels ev tokens).get? p = some LogLevel.debug := by
  constructor
  · intro cmds hc cmd hcm
    have hden := generate_commands_den ev tokens
    rcases Bool.eq_false_or_eq_true (noEmptySeq (outcomes ev tokens)) with
      hb | hb
    swap
    · rw [hb] at hden
      simp only [Bool.false_eq_true, if_false] at hden
      rw [hden] at hc
      cases hc
    · rw [hb] at hden
      simp only [if_true] at hden
      rw [hden] at hc
      have hceq := Except.ok.inj hc
      rw [← hceq] at hcm
      obtain ⟨i, _, rfl⟩ := List.mem_map.mp hcm
      obtain ⟨a, ha⟩ : ∃ a, tokens.get? p = some a := by
        cases hg : tokens.get? p with
        | none => rw [List.get?_eq_none] at hg; omega
        | some a => exact ⟨a, rfl⟩
      obtain ⟨u, hu⟩ : ∃ u, (widthsList ev 1 tokens).get? p = some u := by
        cases hg : (widthsList ev 1 tokens).get? p with
        | none =>
          rw [List.get?_eq_none, widthsList_length] at hg
          omega
        | some u => exact ⟨u, rfl⟩
      have haa : tokens.getD p "" = a := by
        rw [List.getD_eq_get?, ha]
        rfl
      have he : ev a u = .err := by rw [← haa]; exact herr u
      have hoerr : (outcomesFrom ev 1 tokens).get? p = some .err := by
        have hoc := outcomesFrom_get? ev tokens 1 p a u ha hu
        rw [he] at hoc
        exact hoc
      obtain ⟨o, a2, h1, h2, h3⟩ := cmdAtDen_get? ev tokens 1 i p hp
      have ho : o = .err := (Option.some_inj.mp (hoerr.symm.trans h1)).symm
      have ha2 : a2 = a := (Option.some_inj.mp (ha.symm.trans h2)).symm
      rw [ho] at h3
      rw [h3, ha, ha2]
  · rw [evalLogLevels, logLevelsFrom_eq]
    simp [List.get?_eq_getElem?, List.getElem?_replicate, hp]

/-- Witness for claim C4 at the template hello (a bare word raising
NameError). -/
theorem error_token_literal_witness :
    generate_commands evalTokenModel ["hello"] = .ok [["hello"]] ∧
    (evalLogLevels evalTokenModel ["hello"]).get? 0 = some LogLevel.debug := by
  have h := error_token_literal ["hello"] evalTokenModel 0 (by decide)
    (fun _ => rfl)
  exact ⟨by decide, h.2⟩

/-- Claim C5, amended: on the empty token list the generator produces
exactly one command, the empty token list (not zero commands), and a
process is launched on it; when every token evaluates to a scalar or fails,
exactly one command is produced, whose position p holds the stringified
scalar value of token p, or the original token where evaluation failed
(not necessarily the literal template text).  The amendment replaces the
claimed empty generation and the claimed identity with the template by
these, as forced by the counterexample. -/
theorem scalar_only_generation :
    (∀ ev, generate_commands ev ([] : List String) = .ok [[]]) ∧
    (∀ (tokens : List String) (ev : String → Nat → EvaluatedValue),
      (outcomes ev tokens).all (fun o => !o.isSeq) = true →
      generate_commands ev tokens = .ok [argsFrom ev 1 tokens] ∧
      ∀ p, p < tokens.length →
        ∃ o a, (outcomes ev tokens).get? p = some o ∧
          tokens.get? p = some a ∧
          (argsFrom ev 1 tokens).get? p = some (match o with
            | .scalar v => v
            | _ => a)) := by
  constructor
  · intro ev
    rfl
  · intro tokens ev h
    have hall : ∀ o ∈ outcomesFrom ev 1 tokens, o.isSeq = false := by
      intro o ho
      have := List.all_eq_true.mp h o ho
      simpa using this
    constructor
    · have hne : noEmptySeq (outcomes ev tokens) = true := by
        rw [noEmptySeq, List.all_eq_true]
        intro o ho
        have hs := hall o ho
        rcases o with _ | v | s
        · rfl
        · rfl
        · simp [EvaluatedValue.isSeq] at hs
      rw [generate_commands_den, hne]
      simp only [if_true]
      rw [widthFrom_no_seq ev tokens 1 hall,
        show List.range 1 = [0] from rfl]
      simp only [List.map_cons, List.map_nil]
      rw [cmdAtDen_no_seq ev tokens 1 0 hall]
    · intro p hp
      exact argsFrom_get? ev tokens 1 p hp

/-- Witness for claim C5 at the empty template and at the all-scalar
template n. -/
theorem scalar_only_generation_witness :
    generate_commands evalTokenModel [] = .ok [[]] ∧
    generate_commands evalTokenModel ["n"] = .ok [["1"]] := by
  refine ⟨scalar_only_generation.1 evalTokenModel, ?_⟩
  have h := (scalar_only_generation.2 ["n"] evalTokenModel (by decide)).1
  exact h.trans (by decide)

/-- Counterexample to claim C5 as stated: the empty template yields one
(empty) command rather than none, and the all-scalar template n yields the
stringified width 1 rather than the literal template token. -/
theorem scalar_only_counterexample :
    generate_commands evalTokenModel [] ≠ .ok [] ∧
    generate_commands evalTokenModel ["n"] = .ok [["1"]] ∧
    (["1"] : List String) ≠ ["n"] := by
  decide

/-- Claim C8: the evaluation pass visits each token exactly once, in
template order; the width binding handed to the j-th evaluation is the
maximum of the initial value 1 and the greatest sequence length among the
outcomes of the earlier tokens only, not a globally pre-scanned width. -/
theorem evaluation_order_running_max (tokens : List String)
    (ev : String → Nat → EvaluatedValue) :
    (evalWidths ev tokens).length = tokens.length ∧
    (outcomes ev tokens).length = tokens.length ∧
    (∀ p a u, tokens.get? p = some a →
      (evalWidths ev tokens).get? p = some u →
      (outcomes ev tokens).get? p = some (ev a u)) ∧
    (∀ j, j < tokens.length →
      (evalWidths ev tokens).get? j =
        some (max 1 (maxSeqLen ((outcomes ev tokens).take j)))) := by
  refine ⟨widthsList_length ev tokens 1, outcomesFrom_length ev tokens 1,
    ?_, ?_⟩
  · intro p a u ha hu
    exact outcomesFrom_get? ev tokens 1 p a u ha hu
  · intro j hj
    rw [evalWidths, widthsList_get? ev tokens 1 j hj,
      foldl_stepMax_init]
    rfl

/-- Witness for claim C8: in the template range(3) range(n), the second
token is evaluated with width 3, the running maximum contributed by the
first token alone. -/
theorem evaluation_order_running_max_witness :
    (evalWidths evalTokenModel ["range(3)", "range(n)"]).get? 1 =
      some 3 := by
  have h := (evaluation_order_running_max ["range(3)", "range(n)"]
    evalTokenModel).2.2.2 1 (by decide)
  exact h.trans (by decide)

/-- Claim C9: with an output destination configured, the file holds first a
header row equal to the raw template tokens followed by stdout, stderr and
returncode, then exactly one data row per process in launch order, whose
last three cells are that process's captured stdout, captured stderr and
stringified exit code; the total row count is one header row plus the
number of generated commands. -/
theorem csv_layout (tokens : List String)
    (ev : String → Nat → EvaluatedValue)
    (run : Nat → List String → ProcResult) (cmds : List (List String))
    (h : generate_commands ev tokens = .ok cmds) :
    execute_commands ev run tokens =
      .ok ((tokens ++ ["stdout", "stderr", "returncode"]) ::
        cmds.enum.map (fun ic =>
          process_row (final_evaluated_args ev tokens) (run ic.1 ic.2))) ∧
    (cmds.enum.map (fun ic =>
      process_row (final_evaluated_args ev tokens) (run ic.1 ic.2))).length =
      cmds.length ∧
    (∀ i c, cmds.get? i = some c →
      (cmds.enum.map (fun ic =>
        process_row (final_evaluated_args ev tokens) (run ic.1 ic.2))).get? i =
        some (final_evaluated_args ev tokens ++
          [(run i c).stdout, (run i c).stderr,
            toString (run i c).returncode])) := by
  refine ⟨?_, ?_, ?_⟩
  · simp only [execute_commands, h]
  · simp [List.enum_length]
  · intro i c hc
    rw [List.enum, List.get?_map, get?_enumFrom cmds 0 i, hc]
    simp [process_row]

/-- Witness for claim C9 at the template echo range(2) with silent
processes. -/
theorem csv_layout_witness :
    execute_commands evalTokenModel silentRun ["echo", "range(2)"] =
      .ok [["echo", "range(2)", "stdout", "stderr", "returncode"],
           ["echo", "1", "", "", "0"],
           ["echo", "1", "", "", "0"]] := by
  have h := (csv_layout ["echo", "range(2)"] evalTokenModel silentRun
    [["echo", "0"], ["echo", "1"]] (by decide)).1
  exact h.trans (by decide)

/-- Claim C2, refuted by the code: the generator yields the same list
object it keeps mutating, and Popen stores that object as process.args, so
after the drain starts every recorded command equals the final generated
command.  At the template echo range(2) the launched commands are echo 0
and echo 1, yet both CSV data rows carry the command cells echo 1: the
first record's command tokens were altered between issue and collection. -/
theorem process_record_aliasing :
    generate_commands evalTokenModel ["echo", "range(2)"] =
      .ok [["echo", "0"], ["echo", "1"]] ∧
    final_evaluated_args evalTokenModel ["echo", "range(2)"] =
      ["echo", "1"] ∧
    execute_commands evalTokenModel silentRun ["echo", "range(2)"] =
      .ok [["echo", "range(2)", "stdout", "stderr", "returncode"],
           ["echo", "1", "", "", "0"],
           ["echo", "1", "", "", "0"]] ∧
    (["echo", "1"] : List String) ≠ ["echo", "0"] := by
  decide

/-- Claim C3, refuted by the code: the launch passes the token list, not
the joined string, to shell mode; on POSIX the shell therefore parses only
the first token as the command, the remaining tokens becoming positional
parameters of the shell itself.  For the command echo hello, the shell
receives echo as its command string, not the joined echo hello that only
appears in the debug log. -/
theorem shell_first_token_only :
    popenShellArgv ["echo", "hello"] = ["/bin/sh", "-c", "echo", "hello"] ∧
    shellCommandString ["echo", "hello"] = some "echo" ∧
    joinedCommandString ["echo", "hello"] = "echo hello" ∧
    shellCommandString ["echo", "hello"] ≠
      some (joinedCommandString ["echo", "hello"]) := by
  decide

/-- Claim C6, refuted by the code: four names resolve inside an evaluated
expression, not three — besides n, range and repeat, the globals entry
double-underscore builtins resolves (to None, which stringifies to a
scalar); and nothing in the eval call restricts attribute access. -/
theorem sandbox_extra_name :
    evalResolvableNames.length = 4 ∧
    "__builtins__" ∈ evalResolvableNames ∧
    "__builtins__" ∉ sandboxLocalNames ∧
    evalTokenModel "__builtins__" 1 = .scalar "None" := by
  decide

/-- Claim C7, amended: range on 1 or 2 integer arguments, and on 3 with
positive step, produces a strictly ascending end-exclusive sequence (for
step 1 exactly the integers from start to stop); with negative step the
sequence is strictly descending, and step 0 is an error, so the claimed
ascending order holds only for nonnegative-step invocations; repeat on a
scalar value and a count produces exactly count copies (repeat of 1 and 3
yields three ones), while an array value has each element repeated count
times, so the claimed count-copies form holds for scalar values. -/
theorem range_repeat_semantics :
    (∀ stop : Int, pyRange [stop] = .ok (rangeElems 0 stop 1)) ∧
    (∀ start stop : Int,
      pyRange [start, stop] = .ok (rangeElems start stop 1)) ∧
    (∀ start stop : Int, rangeElems start stop 1 =
      (List.range (stop - start).toNat).map
        (fun (k : Nat) => start + (k : Int))) ∧
    (∀ start stop step : Int, 0 < step →
      pyRange [start, stop, step] = .ok (rangeElems start stop step) ∧
      (rangeElems start stop step).Pairwise (· < ·) ∧
      ∀ x ∈ rangeElems start stop step, start ≤ x ∧ x < stop) ∧
    (∀ start stop step : Int, step < 0 →
      (rangeElems start stop step).Pairwise (· > ·)) ∧
    (∀ start stop : Int, pyRange [start, stop, 0] =
      .error "ValueError: range() arg 3 must not be zero") ∧
    (∀ (v : Int) (c : Nat), npRepeat [v] c = List.replicate c v) := by
  refine ⟨fun stop => rfl, fun start stop => rfl, rangeElems_step_one,
    ?_, rangeElems_pairwise_neg, fun start stop => by simp [pyRange],
    npRepeat_scalar⟩
  intro start stop step hs
  refine ⟨by simp [pyRange, hs.ne'], rangeElems_pairwise_pos start stop step hs,
    rangeElems_mem_pos start stop step hs⟩

/-- Witness for claim C7 at range(0, 5, 2) and repeat(1, 3). -/
theorem range_repeat_semantics_witness :
    pyRange [0, 5, 2] = .ok [0, 2, 4] ∧
    List.Pairwise (· < ·) ([0, 2, 4] : List Int) ∧
    npRepeat [1] 3 = [1, 1, 1] := by
  obtain ⟨-, -, -, h4, -, -, h7⟩ := range_repeat_semantics
  obtain ⟨hr, hpw, -⟩ := h4 0 5 2 (by decide)
  refine ⟨hr.trans (by decide), ?_, (h7 1 3).trans (by decide)⟩
  exact (by decide : rangeElems 0 5 2 = [0, 2, 4]) ▸ hpw

/-- Counterexample to claim C7 as stated: range with a negative step is
descending, not ascending, and repeat applied to a two-element array with
count 2 yields four elements, not two copies of the value. -/
theorem range_repeat_counterexample :
    pyRange [3, 0, -1] = .ok [3, 2, 1] ∧
    ¬ ([3, 2, 1] : List Int).Pairwise (· < ·) ∧
    npRepeat [1, 2] 2 = [1, 1, 2, 2] ∧
    (npRepeat [1, 2] 2).length ≠ 2 := by
  decide

end ClaimTheorems

example : evalTokenModel "range(2)" 1 = .seq ["0", "1"] := by decide
example : evalTokenModel "range(0)" 1 = .seq [] := by decide
example : evalTokenModel "repeat(1,3)" 1 = .seq ["1", "1", "1"] := by decide
example : evalTokenModel "echo" 5 = .err := by decide
example : evalTokenModel "n" 3 = .scalar "3" := by decide
example : evalTokenModel "range(n)" 3 = .seq ["0", "1", "2"] := by decide
example : evalTokenModel "range(3,0,-1)" 1 = .seq ["3", "2", "1"] := by decide
example : generate_commands evalTokenModel ["echo", "range(2)"] =
    .ok [["echo", "0"], ["echo", "1"]] := by decide
example : generate_commands evalTokenModel [] = .ok [[]] := by decide
example : generate_commands evalTokenModel ["range(0)"] = .error zeroDivMsg := by
  decide
example : final_evaluated_args evalTokenModel ["echo", "range(2)"] =
    ["echo", "1"] := by decide
example : execute_commands evalTokenModel silentRun ["echo", "range(2)"] =
    .ok [["echo", "range(2)", "stdout", "stderr", "returncode"],
         ["echo", "1", "", "", "0"],
         ["echo", "1", "", "", "0"]] := by decide
